import Mathlib

/-!
Verification development for the MFS volume reader (`mfs.go` of st3fan/mfs).

The Go source is shallowly embedded:
  * bytes are `Nat` values (well-formed bytes are `< 256`; byte-typed
    machine arithmetic is written with explicit `% 256` / `% 65536` where
    the Go code computes in `byte` / `uint16`);
  * the seekable byte source (`io.ReadSeeker`) is a `List Nat` giving the
    whole image, reads are slices of it, and every seek/read issued against
    the source is recorded in an explicit `SrcOp` trace;
  * Go functions that can return an `error` or panic yield a `Res` value;
    the unbounded `for` loop of `bytesReader` is embedded with explicit
    fuel, `Res.fuelOut` marking that the loop is still running after the
    given number of iterations (the Go loop has no bound of its own);
  * `time.Time` values are represented by their seconds-since-1970 value,
    with `int64` wrap-around made explicit.
-/

namespace Mfs

/-- Errors returned (as Go `error` values) by the code in `mfs.go`.  The
source constructs exactly one error of its own (`Invalid volume signature`)
and otherwise propagates I/O errors from the byte source. -/
inductive GoError where
  | ioError
  | invalidSignature
  deriving DecidableEq, Repr

/-- Outcome of running a piece of the Go code: a normal return, a returned
`error`, a runtime panic (out-of-range index or slice), or — for the
fuel-embedded chain-walking loop only — exhaustion of the fuel bound while
the loop is still running. -/
inductive Res (α : Type) where
  | ok : α → Res α
  | goError : GoError → Res α
  | panicked : Res α
  | fuelOut : Res α
  deriving DecidableEq, Repr

/-- Constant `logicalBlockSize` from `mfs.go`. -/
def logicalBlockSize : Nat := 512

/-- Constant `maxFileNameLength` from `mfs.go` (excluding the length byte). -/
def maxFileNameLength : Nat := 31

/-- Constant `maxVolumeNameLength` from `mfs.go` (excluding the length byte). -/
def maxVolumeNameLength : Nat := 27

/-- The `volumeInformation` record of `mfs.go` (all fields, decoded from the
big-endian header; numeric fields hold the decoded unsigned values). -/
structure VolumeInformation where
  signature : Nat
  createDate : Nat
  lastBackup : Nat
  attributes : Nat
  numberOfFiles : Nat
  dirSt : Nat
  blLen : Nat
  numberOfAllocationBlocks : Nat
  sizeOfAllocationBlocks : Nat
  clpSize : Nat
  firstAllocationBlockInBlockMap : Nat
  nextUnusedFileNumber : Nat
  freeBlocks : Nat
  volumeName : List Nat
  deriving DecidableEq, Repr

/-- The `fileDirectoryEntry` record of `mfs.go` (all fields; `usrWds` is the
16-byte Finder info field and `nam` the 32-byte name field, first byte =
declared length). -/
structure FileDirectoryEntry where
  flags : Nat
  version : Nat
  usrWds : List Nat
  flNum : Nat
  stBlk : Nat
  lgLen : Nat
  pyLen : Nat
  rStBlk : Nat
  rLgLen : Nat
  rPyLen : Nat
  crDat : Nat
  mdDat : Nat
  nam : List Nat
  deriving DecidableEq, Repr

/-- The `File` record of `mfs.go`.  Go strings are byte sequences, embedded
as `List Nat`; `created` / `modified` are the seconds-since-1970 values
passed to `time.Unix`. -/
structure File where
  name : List Nat
  fileType : List Nat
  creator : List Nat
  created : Int
  modified : Int
  dataForkLength : Nat
  resourceForkLength : Nat
  directoryEntry : FileDirectoryEntry
  deriving DecidableEq, Repr

/-- The `Volume` record of `mfs.go` (the `io.ReadSeeker` field is passed
separately to the operations as the image plus a trace of issued
operations). -/
structure Volume where
  allocationBlocks : List Nat
  name : List Nat
  files : List File
  vi : VolumeInformation
  deriving DecidableEq, Repr

/-- Go function `pascalString` (`mfs.go` lines 75–81): `length := int(data[0])`,
empty string when `length == 0`, otherwise `data[1 : length+1]`.  The slice
expression panics when `length + 1` exceeds the length (= capacity) of
`data`, which for the 32-byte `Nam` field means any declared length above
31; there is no error return on that path. -/
def pascalString (data : List Nat) : Res (List Nat) :=
  match data with
  | [] => Res.panicked
  | l :: _ =>
    if l = 0 then Res.ok []
    else if l + 1 ≤ data.length then Res.ok ((data.drop 1).take l)
    else Res.panicked

/-- Two's-complement wrap-around of an integer into the `int64` range, the
arithmetic Go performs on `int64` values. -/
def int64Wrap (x : Int) : Int :=
  (x + 9223372036854775808) % 18446744073709551616 - 9223372036854775808

/-- The timestamp conversion of `mfs.go` lines 152–153:
`time.Unix(int64(raw) - 2082844800, 0)` where `raw` is the big-endian
`uint32` read from the record.  The `uint32 → int64` conversion is value
preserving (`raw % 2^32` makes the `uint32` typing explicit) and the
subtraction is performed in `int64`. -/
def macToUnix (raw : Nat) : Int :=
  int64Wrap (((raw % 4294967296 : Nat) : Int) - 2082844800)

/-- Construction of one `File` value from a decoded directory record
(`mfs.go` lines 150–159).  `pascalString` is applied to the 32-byte name
field; `Type`/`Creator` are `UsrWds[0:4]` and `UsrWds[4:8]`; the fork
lengths are the `uint32` logical lengths widened to `int64`. -/
def mkFile (fde : FileDirectoryEntry) : Res File :=
  match pascalString fde.nam with
  | Res.ok n =>
    Res.ok
      { name := n
        fileType := fde.usrWds.take 4
        creator := (fde.usrWds.drop 4).take 4
        created := macToUnix fde.crDat
        modified := macToUnix fde.mdDat
        dataForkLength := fde.lgLen
        resourceForkLength := fde.rLgLen
        directoryEntry := fde }
  | Res.goError e => Res.goError e
  | Res.panicked => Res.panicked
  | Res.fuelOut => Res.fuelOut

/-- The `File`-building part of the directory loop of `NewVolume`
(`mfs.go` lines 144–159): each decoded record is turned into a `File` in
order; a panic or error while building one record aborts the whole
construction. -/
def parseFiles : List FileDirectoryEntry → Res (List File)
  | [] => Res.ok []
  | fde :: rest =>
    match mkFile fde with
    | Res.ok f =>
      match parseFiles rest with
      | Res.ok fs => Res.ok (f :: fs)
      | Res.goError e => Res.goError e
      | Res.panicked => Res.panicked
      | Res.fuelOut => Res.fuelOut
    | Res.goError e => Res.goError e
    | Res.panicked => Res.panicked
    | Res.fuelOut => Res.fuelOut

/-- The allocation-map decoding loop of `NewVolume` (`mfs.go` lines
108–134), reading from the byte stream positioned after the header.  `t` is
the rolling carry byte, `i` the entry index; an even index consumes two
bytes `a`, `b` producing `(uint16(a) << 4) | (uint16(b) >> 4)` and stores
`b` as carry, an odd index consumes one byte `a` producing
`(uint16(t & 0x0f) << 8) | uint16(a)`.  Running out of input is the Go
read error path. -/
def allocLoop (t : Nat) (i : Nat) : Nat → List Nat → Option (List Nat)
  | 0, _ => some []
  | n + 1, bs =>
    if i % 2 = 0 then
      match bs with
      | a :: b :: rest =>
        (allocLoop b (i + 1) n rest).map
          (fun l => (((a <<< 4) % 65536) ||| (b >>> 4)) :: l)
      | _ => none
    else
      match bs with
      | a :: rest =>
        (allocLoop t (i + 1) n rest).map
          (fun l => ((((t &&& 15) <<< 8) % 65536) ||| a) :: l)
      | _ => none

/-- Decoding of `count` packed 12-bit allocation-map entries, exactly as the
loop of `mfs.go` lines 108–134 with initial carry `t = 0` and first index
`i = 0`. -/
def decodeAllocationBlocks (count : Nat) (bs : List Nat) : Option (List Nat) :=
  allocLoop 0 0 count bs

/-- The backward seek distance of `mfs.go` lines 180–183:
`offset := int64(maxFileNameLength + 1 - 1 - fde.Nam[0])`, computed in Go
`byte` arithmetic (hence the `% 256` wrap) before the widening to `int64`,
then decremented by one when the name length is even. -/
def nameBackOffset (nameLen : Nat) : Int :=
  let base : Nat := (31 + 256 - nameLen % 256) % 256
  if nameLen % 2 = 0 then (base : Int) - 1 else (base : Int)

/-- Cursor update performed after each directory record (`mfs.go` lines
161–187).  `current` is the cursor position right after the fixed 82-byte
record read.  If `(current + 52) % 512 < 52` the parser seeks forward by
`logicalBlockSize - current % logicalBlockSize` and skips the backward
correction; otherwise it seeks backward by `nameBackOffset` of the record's
declared name length. -/
def directoryStep (current : Nat) (nameLen : Nat) : Int :=
  if (current + 52) % 512 < 52 then
    (current : Int) + ((512 : Int) - ((current % 512 : Nat) : Int))
  else
    (current : Int) - nameBackOffset nameLen

/-- Rounding a record size up to an even number of bytes (word alignment). -/
def roundUpEven (n : Nat) : Nat := n + n % 2

/-- One seek or read issued against the shared byte source
(`io.ReadSeeker`); `read off len` records a full read of `len` bytes at
absolute offset `off`. -/
inductive SrcOp where
  | seek : Nat → SrcOp
  | read : Nat → Nat → SrcOp
  deriving DecidableEq, Repr

/-- Absolute byte offset of allocation block `idx` (`mfs.go` lines
204–205): `int64(DirSt + BlLen) * 512 + int64(idx) * int64(SizeOfAllocationBlocks)`.
`DirSt + BlLen` is a `uint16` addition, hence the `% 65536`. -/
def allocationBlockOffset (vi : VolumeInformation) (idx : Nat) : Nat :=
  ((vi.dirSt + vi.blLen) % 65536) * logicalBlockSize + idx * vi.sizeOfAllocationBlocks

/-- The bytes of allocation block `idx` in image `img` (the slice a
successful `readAllocationBlock` returns). -/
def blockBytes (img : List Nat) (vi : VolumeInformation) (idx : Nat) : List Nat :=
  (img.drop (allocationBlockOffset vi idx)).take vi.sizeOfAllocationBlocks

/-- The source operations one `readAllocationBlock` call issues: a seek to
the block's offset followed by a full read of one allocation block. -/
def blockOps (vi : VolumeInformation) (idx : Nat) : List SrcOp :=
  [SrcOp.seek (allocationBlockOffset vi idx),
   SrcOp.read (allocationBlockOffset vi idx) vi.sizeOfAllocationBlocks]

/-- Go method `readAllocationBlock` (`mfs.go` lines 199–216): seek to the
block's offset and read `SizeOfAllocationBlocks` bytes into a fresh buffer.
The byte source is idealized as serving any in-range read completely and
failing (Go error return) when the requested range extends past the end of
the image. -/
def readAllocationBlock (img : List Nat) (vi : VolumeInformation) (idx : Nat) :
    Res (List Nat × List SrcOp) :=
  if allocationBlockOffset vi idx + vi.sizeOfAllocationBlocks ≤ img.length then
    Res.ok (blockBytes img vi idx, blockOps vi idx)
  else
    Res.goError GoError.ioError

/-- The chain-link lookup `volume.allocationBlocks[allocationBlockIndex-2]`
(`mfs.go` lines 228 and 237).  The subtraction is `uint16` arithmetic, so
`idx - 2` wraps modulo 65536; an index at or beyond the slice length is a
Go runtime panic. -/
def nextBlockIndex (v : Volume) (idx : Nat) : Res Nat :=
  let j := (idx + 65534) % 65536
  if h : j < v.allocationBlocks.length then
    Res.ok (v.allocationBlocks.get ⟨j, h⟩)
  else
    Res.panicked

/-- The `for allocationBlockIndex != 1` loop of `bytesReader` (`mfs.go`
lines 230–238), with explicit fuel: each iteration reads the current block,
appends its bytes, and follows the allocation-map link; the loop exits only
when the index equals the terminal marker 1.  `Res.fuelOut` means the loop
was still running after `fuel` iterations — the Go loop itself is
unbounded. -/
def chainLoop (img : List Nat) (v : Volume) :
    Nat → Nat → List Nat → List SrcOp → Res (List Nat × List SrcOp)
  | 0, idx, dat, ops => if idx = 1 then Res.ok (dat, ops) else Res.fuelOut
  | fuel + 1, idx, dat, ops =>
    if idx = 1 then Res.ok (dat, ops)
    else
      match readAllocationBlock img v.vi idx with
      | Res.ok (bytes, ops2) =>
        match nextBlockIndex v idx with
        | Res.ok nxt => chainLoop img v fuel nxt (dat ++ bytes) (ops ++ ops2)
        | Res.goError e => Res.goError e
        | Res.panicked => Res.panicked
        | Res.fuelOut => Res.fuelOut
      | Res.goError e => Res.goError e
      | Res.panicked => Res.panicked
      | Res.fuelOut => Res.fuelOut

/-- The in-memory stream `bytes.NewReader` returns: a buffer and a read
position.  It holds no reference to the volume's byte source. -/
structure ByteStream where
  data : List Nat
  pos : Nat
  deriving DecidableEq, Repr

/-- Reading a `bytes.Reader` to completion: all bytes from the current
position to the end of its buffer. -/
def streamReadAll (s : ByteStream) : List Nat := s.data.drop s.pos

/-- Go method `bytesReader` (`mfs.go` lines 218–242).  For `length == 0`
the accumulation loop body is skipped entirely and an empty reader is
returned with no source operation issued.  Otherwise the first block is
read, its chain link looked up, the remaining chain accumulated by
`chainLoop`, and the buffer sliced to `data[0:length]` — a slice expression
that can panic when `length` exceeds the buffer's capacity, embedded
conservatively as a panic whenever `length` exceeds the accumulated length
(when the slice does succeed in Go it always yields exactly `length`
bytes). -/
def bytesReader (img : List Nat) (v : Volume) (startBlock length fuel : Nat) :
    Res (ByteStream × List SrcOp) :=
  if length = 0 then Res.ok (⟨[], 0⟩, [])
  else
    match readAllocationBlock img v.vi startBlock with
    | Res.ok (bytes, ops) =>
      match nextBlockIndex v startBlock with
      | Res.ok nxt =>
        match chainLoop img v fuel nxt bytes ops with
        | Res.ok (dat, ops2) =>
          if length ≤ dat.length then Res.ok (⟨dat.take length, 0⟩, ops2)
          else Res.panicked
        | Res.goError e => Res.goError e
        | Res.panicked => Res.panicked
        | Res.fuelOut => Res.fuelOut
      | Res.goError e => Res.goError e
      | Res.panicked => Res.panicked
      | Res.fuelOut => Res.fuelOut
    | Res.goError e => Res.goError e
    | Res.panicked => Res.panicked
    | Res.fuelOut => Res.fuelOut

/-- Go method `OpenDataFork` (`mfs.go` lines 245–248):
`file := volume.Files[fileIndex]` — a panic when the `int` index is
negative or at or beyond the slice length — then `bytesReader` on the data
fork's start block and logical length. -/
def openDataFork (img : List Nat) (v : Volume) (i : Int) (fuel : Nat) :
    Res (ByteStream × List SrcOp) :=
  match i with
  | Int.ofNat n =>
    match v.files[n]? with
    | some f => bytesReader img v f.directoryEntry.stBlk f.directoryEntry.lgLen fuel
    | none => Res.panicked
  | Int.negSucc _ => Res.panicked

/-- Go method `OpenResourceFork` (`mfs.go` lines 251–254), as
`OpenDataFork` but on the resource fork's start block and logical
length. -/
def openResourceFork (img : List Nat) (v : Volume) (i : Int) (fuel : Nat) :
    Res (ByteStream × List SrcOp) :=
  match i with
  | Int.ofNat n =>
    match v.files[n]? with
    | some f => bytesReader img v f.directoryEntry.rStBlk f.directoryEntry.rLgLen fuel
    | none => Res.panicked
  | Int.negSucc _ => Res.panicked

/-- The pure walk of the allocation map from index `idx` until the terminal
marker 1, listing the visited block indices; `none` when the fuel runs out
or a link lookup would be out of range.  This is the specification the
imperative `chainLoop` is proved to refine. -/
def chainIdxs (v : Volume) : Nat → Nat → Option (List Nat)
  | 0, idx => if idx = 1 then some [] else none
  | fuel + 1, idx =>
    if idx = 1 then some []
    else
      match nextBlockIndex v idx with
      | Res.ok nxt => (chainIdxs v fuel nxt).map (fun l => idx :: l)
      | _ => none

/-- Combined state of the shared byte source cursor and a stream returned
by a fork open, for stating frame properties of stream reads. -/
structure World where
  srcPos : Nat
  stream : ByteStream
  deriving DecidableEq, Repr

/-- Moving the shared byte source's cursor (a seek issued by any other user
of the source, e.g. another fork open). -/
def srcSeekWorld (w : World) (p : Nat) : World :=
  { w with srcPos := p }

/-- Reading the stream of a world to completion: `bytes.Reader.Read` works
on the reader's own buffer, so it returns the buffered bytes, leaves the
source cursor untouched and issues no operation against the source. -/
def worldStreamReadAll (w : World) : List Nat × World × List SrcOp :=
  (streamReadAll w.stream,
   { w with stream := ⟨w.stream.data, w.stream.data.length⟩ },
   [])

/-! Concrete test fixtures: a small well-formed volume, a volume whose
allocation map contains a cycle, and a volume whose chain walks into an
out-of-range map lookup.  Used to instantiate the theorems below on
concrete inputs. -/

/-- Geometry of the small well-formed test volume: directory region at
block 0 of length 0 (so allocation storage starts at offset 0), four
allocation-map entries, 4-byte allocation blocks, one file. -/
def testVI : VolumeInformation :=
  { signature := 0xd2d7, createDate := 0, lastBackup := 0, attributes := 0,
    numberOfFiles := 1, dirSt := 0, blLen := 0, numberOfAllocationBlocks := 4,
    sizeOfAllocationBlocks := 4, clpSize := 0, firstAllocationBlockInBlockMap := 0,
    nextUnusedFileNumber := 0, freeBlocks := 0, volumeName := [] }

/-- Directory record of the test volume's single file: one-character name,
data fork of 3 bytes and resource fork of 4 bytes, both starting at
allocation block 2. -/
def testFde : FileDirectoryEntry :=
  { flags := 0, version := 0, usrWds := List.replicate 16 0, flNum := 0,
    stBlk := 2, lgLen := 3, pyLen := 4, rStBlk := 2, rLgLen := 4, rPyLen := 4,
    crDat := 100, mdDat := 5, nam := 1 :: 65 :: List.replicate 30 0 }

/-- The `File` value `mkFile testFde` produces. -/
def testFile : File :=
  { name := [65], fileType := List.replicate 4 0, creator := List.replicate 4 0,
    created := macToUnix 100, modified := macToUnix 5,
    dataForkLength := 3, resourceForkLength := 4, directoryEntry := testFde }

/-- The small well-formed test volume: allocation block 2 is terminal
(`map[0] = 1`), one file. -/
def testVol : Volume :=
  { allocationBlocks := [1, 0, 0, 0], name := [], files := [testFile], vi := testVI }

/-- Image backing the test volume (16 bytes; allocation block 2 occupies
offsets 8–11). -/
def testImg : List Nat := List.range 16

/-- Geometry of the cyclic-map volume: 1-byte allocation blocks. -/
def cycVI : VolumeInformation :=
  { testVI with sizeOfAllocationBlocks := 1 }

/-- Volume whose allocation map contains the cycle 2 → 5 → 2
(`map[0] = 5`, `map[3] = 2`). -/
def cycVol : Volume :=
  { allocationBlocks := [5, 0, 0, 2], name := [], files := [], vi := cycVI }

/-- Image backing the cyclic volume (8 bytes, enough for every block read
in the cycle to succeed). -/
def cycImg : List Nat := List.range 8

/-- Geometry of the out-of-range-chain volume: 1-byte allocation blocks,
two map entries. -/
def panVI : VolumeInformation :=
  { testVI with sizeOfAllocationBlocks := 1, numberOfAllocationBlocks := 2 }

/-- Volume whose chain from block 2 goes 2 → 3 → 0, where looking up the
link of block 0 indexes the map at `(0 - 2) mod 2^16 = 65534`, far outside
the two-entry map. -/
def panVol : Volume :=
  { allocationBlocks := [3, 0], name := [], files := [], vi := panVI }

/-- Image backing the out-of-range-chain volume. -/
def panImg : List Nat := List.range 6

/-- A directory record declaring name length 40 (> 31) in its 32-byte name
field. -/
def fde40 : FileDirectoryEntry :=
  { testFde with nam := 40 :: List.replicate 31 0 }

/-! Helper lemmas. -/

/-- A `uint32` value survives the widening to `int64` and the epoch
subtraction without wrap-around. -/
theorem macToUnix_eq {raw : Nat} (h : raw < 4294967296) :
    macToUnix raw = (raw : Int) - 2082844800 := by
  unfold macToUnix int64Wrap
  rw [Nat.mod_eq_of_lt h]
  rw [Int.emod_eq_of_lt (by omega) (by omega)]
  ring

/-- A successful `readAllocationBlock` returns exactly the block's bytes
and the seek-plus-read trace. -/
theorem readAllocationBlock_ok {img : List Nat} {vi : VolumeInformation}
    {idx : Nat} {p : List Nat × List SrcOp}
    (h : readAllocationBlock img vi idx = Res.ok p) :
    p = (blockBytes img vi idx, blockOps vi idx) := by
  unfold readAllocationBlock at h
  split at h
  · injection h with h1
    exact h1.symm
  · exact Res.noConfusion h

/-- A stream successfully returned by `bytesReader` holds exactly `len`
bytes and starts at position 0. -/
theorem bytesReader_length {img : List Nat} {v : Volume} {sb len fuel : Nat}
    {s : ByteStream} {ops : List SrcOp}
    (h : bytesReader img v sb len fuel = Res.ok (s, ops)) :
    s.data.length = len ∧ s.pos = 0 := by
  unfold bytesReader at h
  split at h
  case isTrue h0 =>
    injection h with h1
    injection h1 with hs hops
    subst hs
    simp [h0]
  case isFalse h0 =>
    split at h
    case h_2 => exact Res.noConfusion h
    case h_3 => exact Res.noConfusion h
    case h_4 => exact Res.noConfusion h
    case h_1 bytes ops1 hr =>
      split at h
      case h_2 => exact Res.noConfusion h
      case h_3 => exact Res.noConfusion h
      case h_4 => exact Res.noConfusion h
      case h_1 nxt hn =>
        split at h
        case h_2 => exact Res.noConfusion h
        case h_3 => exact Res.noConfusion h
        case h_4 => exact Res.noConfusion h
        case h_1 dat ops2 hc =>
          split at h
          case isFalse => exact Res.noConfusion h
          case isTrue hle =>
            injection h with h1
            injection h1 with hs hops
            subst hs
            simp [List.length_take]
            omega

/-- The allocation-map decoding loop produces one entry per requested
count, each a 12-bit value, whenever it succeeds on well-formed byte
input. -/
theorem allocLoop_bounds : ∀ (n i t : Nat) (bs : List Nat) (l : List Nat),
    (∀ b ∈ bs, b < 256) → t < 256 → allocLoop t i n bs = some l →
    l.length = n ∧ ∀ x ∈ l, x < 4096 := by
  intro n
  induction n with
  | zero =>
    intro i t bs l _ _ h
    simp only [allocLoop] at h
    injection h with h1
    subst h1
    simp
  | succ n ih =>
    intro i t bs l hbs ht h
    simp only [allocLoop] at h
    split at h
    case isTrue hi =>
      match bs, hbs, h with
      | [], hbs, h => exact Option.noConfusion h
      | [a], hbs, h => exact Option.noConfusion h
      | a :: b :: rest, hbs, h =>
        dsimp only at h
        cases hal : allocLoop b (i + 1) n rest with
        | none => rw [hal] at h; exact Option.noConfusion h
        | some l2 =>
          rw [hal] at h
          injection h with h1
          subst h1
          have ha : a < 256 := hbs a (by simp)
          have hb : b < 256 := hbs b (by simp)
          have hrest : ∀ x ∈ rest, x < 256 := fun x hx => hbs x (by simp [hx])
          obtain ⟨hlen, hbound⟩ := ih (i + 1) b rest l2 hrest hb hal
          refine ⟨by simp [hlen], ?_⟩
          intro x hx
          rcases List.mem_cons.mp hx with hx | hx
          · subst hx
            have h4096 : (2 : Nat) ^ 12 = 4096 := by norm_num
            have h1 : (a <<< 4) % 65536 < 2 ^ 12 := by
              have he : a <<< 4 = a * 16 := by
                rw [Nat.shiftLeft_eq]
              rw [h4096, he]
              omega
            have h2 : b >>> 4 < 2 ^ 12 := by
              have he : b >>> 4 = b / 16 := by
                rw [Nat.shiftRight_eq_div_pow]
              rw [h4096, he]
              omega
            have := Nat.or_lt_two_pow h1 h2
            norm_num at this
            exact this
          · exact hbound x hx
    case isFalse hi =>
      match bs, hbs, h with
      | [], hbs, h => exact Option.noConfusion h
      | a :: rest, hbs, h =>
        dsimp only at h
        cases hal : allocLoop t (i + 1) n rest with
        | none => rw [hal] at h; exact Option.noConfusion h
        | some l2 =>
          rw [hal] at h
          injection h with h1
          subst h1
          have ha : a < 256 := hbs a (by simp)
          have hrest : ∀ x ∈ rest, x < 256 := fun x hx => hbs x (by simp [hx])
          obtain ⟨hlen, hbound⟩ := ih (i + 1) t rest l2 hrest ht hal
          refine ⟨by simp [hlen], ?_⟩
          intro x hx
          rcases List.mem_cons.mp hx with hx | hx
          · subst hx
            have h4096 : (2 : Nat) ^ 12 = 4096 := by norm_num
            have hand : t &&& 15 ≤ 15 := Nat.and_le_right
            have h1 : ((t &&& 15) <<< 8) % 65536 < 2 ^ 12 := by
              have he : (t &&& 15) <<< 8 = (t &&& 15) * 256 := by
                rw [Nat.shiftLeft_eq]
              rw [h4096, he]
              omega
            have h2 : a < 2 ^ 12 := by
              rw [h4096]
              omega
            have := Nat.or_lt_two_pow h1 h2
            norm_num at this
            exact this
          · exact hbound x hx

/-! Claim theorems. -/

/-- C3 (counterexample): at a record starting at offset 0 with name length
7 the block-boundary rule does not apply, and the cursor is NOT advanced by
`22 + 1 + 7` rounded up to an even number of bytes (it is advanced by 58,
not 30). -/
theorem directory_advance_not_23_plus_name : ¬ ((0 + 82 + 52) % 512 < 52) ∧
    directoryStep (0 + 82) 7 ≠ ((0 : Nat) : Int) + ((roundUpEven (22 + 1 + 7) : Nat) : Int) := by
  constructor
  · decide
  · decide

/-- C3 (amended): when the block-boundary rule does not apply and the name
length is at most 31, the parser seeks backward by
`(maxNameFieldSize - 1 - L)` minus one more when `L` is even, which
advances the cursor from the record's start by the true on-disk record
size `50 + 1 + L` rounded up to an even number of bytes (the fixed portion
of a record is 50 bytes, not 22). -/
theorem directory_advance_true_record_size (start L : Nat) (hL : L ≤ 31)
    (hb : ¬ ((start + 82 + 52) % 512 < 52)) :
    nameBackOffset L = ((32 : Int) - 1 - (L : Int)) - (if L % 2 = 0 then 1 else 0) ∧
    directoryStep (start + 82) L = ((start : Nat) : Int) + ((roundUpEven (50 + 1 + L) : Nat) : Int) := by
  have hm : L % 256 = L := Nat.mod_eq_of_lt (by omega)
  have hbase : (31 + 256 - L % 256) % 256 = 31 - L := by omega
  unfold directoryStep nameBackOffset roundUpEven
  rw [if_neg hb, hbase]
  by_cases he : L % 2 = 0
  · rw [if_pos he, if_pos he]
    constructor
    · omega
    · have h2 : (50 + 1 + L) % 2 = 1 := by omega
      rw [h2]
      push_cast
      omega
  · rw [if_neg he, if_neg he]
    constructor
    · omega
    · have h2 : (50 + 1 + L) % 2 = 0 := by omega
      rw [h2]
      push_cast
      omega

/-- C3 (witness): the amended statement at a record starting at offset 0
with name length 7: the cursor is advanced by exactly 58 bytes,
`roundUpEven (50 + 1 + 7)`. -/
theorem directory_advance_true_record_size_witness :
    nameBackOffset 7 = ((32 : Int) - 1 - ((7 : Nat) : Int)) - (if 7 % 2 = 0 then 1 else 0) ∧
    directoryStep (0 + 82) 7 = ((0 : Nat) : Int) + ((roundUpEven (50 + 1 + 7) : Nat) : Int) :=
  directory_advance_true_record_size 0 7 (by decide) (by decide)

/-- C4 (confirmed): when `(currentOffset + 52) % 512 < 52` after the fixed
82-byte read, the parser seeks forward to the next 512-byte block boundary
(the least multiple of 512 beyond the current offset), and the result does
not depend on the record's name length — the backward framing correction
is not applied. -/
theorem directory_block_boundary_skip (start L : Nat)
    (hb : (start + 82 + 52) % 512 < 52) :
    directoryStep (start + 82) L = ((512 * ((start + 82) / 512 + 1) : Nat) : Int) ∧
    (start + 82 : Int) < directoryStep (start + 82) L ∧
    ∀ L2, directoryStep (start + 82) L2 = directoryStep (start + 82) L := by
  unfold directoryStep
  rw [if_pos hb]
  refine ⟨by push_cast; omega, by push_cast; omega, ?_⟩
  intro L2
  rw [if_pos hb]

/-- C4 (witness): a record whose fixed read ends at offset 460 (where only
52 bytes remain in the logical block) is followed by a seek to offset 512,
the next block boundary. -/
theorem directory_block_boundary_skip_witness :
    directoryStep (378 + 82) 5 = ((512 * ((378 + 82) / 512 + 1) : Nat) : Int) :=
  (directory_block_boundary_skip 378 5 (by decide)).1

/-- C5 (confirmed): decoding the allocation map yields exactly `count`
entries, each a 12-bit value in 0–4095; a two-entry decode consumes three
bytes `a b c` yielding `(a << 4) | (b >> 4)` and `((b & 0x0F) << 8) | c`
(with `b` as the retained carry); in particular the packed bytes
`0x12 0x34 0x56` decode to exactly the entries `0x123` and `0x456`. -/
theorem alloc_map_decode_entries :
    (∀ (count : Nat) (bs : List Nat) (l : List Nat), (∀ b ∈ bs, b < 256) →
       decodeAllocationBlocks count bs = some l →
       l.length = count ∧ ∀ x ∈ l, x < 4096) ∧
    (∀ a b c : Nat, decodeAllocationBlocks 2 [a, b, c] =
       some [((a <<< 4) % 65536) ||| (b >>> 4),
             (((b &&& 15) <<< 8) % 65536) ||| c]) ∧
    decodeAllocationBlocks 2 [0x12, 0x34, 0x56] = some [0x123, 0x456] := by
  refine ⟨?_, ?_, by decide⟩
  · intro count bs l hbs h
    exact allocLoop_bounds count 0 0 bs l hbs (by norm_num) h
  · intro a b c
    simp [decodeAllocationBlocks, allocLoop]

/-- C5 (witness): the decode of the concrete packed bytes `0x12 0x34 0x56`
has exactly two entries, both 12-bit values. -/
theorem alloc_map_decode_entries_witness :
    ([0x123, 0x456] : List Nat).length = 2 ∧ ∀ x ∈ ([0x123, 0x456] : List Nat), x < 4096 :=
  alloc_map_decode_entries.1 2 [0x12, 0x34, 0x56] [0x123, 0x456] (by decide)
    alloc_map_decode_entries.2.2

/-- C8 (confirmed): opening a fork whose logical length is 0 succeeds with
an empty, immediately-exhausted stream, whatever the start block, and
issues no read or seek against the byte source (the trace is empty). -/
theorem zero_length_fork_no_io (img : List Nat) (v : Volume) (sb fuel : Nat) :
    bytesReader img v sb 0 fuel = Res.ok (⟨[], 0⟩, []) ∧
    streamReadAll ⟨[], 0⟩ = ([] : List Nat) :=
  ⟨rfl, rfl⟩

/-- C9 (confirmed): the exposed `created` and `modified` timestamps equal
the raw big-endian u32 seconds-since-1904 value minus 2,082,844,800,
computed without wrap-around (the `int64` intermediate is wide enough), so
raw values below the offset give negative (pre-1970) timestamps. -/
theorem timestamps_epoch_shift (fde : FileDirectoryEntry) (f : File)
    (hc : fde.crDat < 4294967296) (hm : fde.mdDat < 4294967296)
    (hf : mkFile fde = Res.ok f) :
    f.created = (fde.crDat : Int) - 2082844800 ∧
    f.modified = (fde.mdDat : Int) - 2082844800 ∧
    ((fde.crDat : Int) < 2082844800 → f.created < 0) := by
  have hfields : f.created = macToUnix fde.crDat ∧ f.modified = macToUnix fde.mdDat := by
    unfold mkFile at hf
    split at hf
    case h_2 => exact Res.noConfusion hf
    case h_3 => exact Res.noConfusion hf
    case h_4 => exact Res.noConfusion hf
    case h_1 nm hp =>
      injection hf with h1
      subst h1
      exact ⟨rfl, rfl⟩
  rw [hfields.1, hfields.2, macToUnix_eq hc, macToUnix_eq hm]
  refine ⟨rfl, rfl, ?_⟩
  intro hlt
  omega

/-- C9 (witness): the test record with raw creation time 100 yields the
negative timestamp 100 − 2,082,844,800. -/
theorem timestamps_epoch_shift_witness :
    testFile.created = ((testFde.crDat : Nat) : Int) - 2082844800 ∧
    testFile.modified = ((testFde.mdDat : Nat) : Int) - 2082844800 ∧
    (((testFde.crDat : Nat) : Int) < 2082844800 → testFile.created < 0) :=
  timestamps_epoch_shift testFde testFile (by decide) (by decide) (by decide)

/-- C1 (confirmed): whenever a fork open by index succeeds, the returned
stream read to completion yields exactly the descriptor's declared logical
length in bytes, for the data and resource forks alike. -/
theorem fork_stream_length_matches_descriptor (img : List Nat) (v : Volume)
    (i : Nat) (f : File) (fuel : Nat) (hf : v.files[i]? = some f) :
    (∀ s ops, openDataFork img v (Int.ofNat i) fuel = Res.ok (s, ops) →
       (streamReadAll s).length = f.directoryEntry.lgLen) ∧
    (∀ s ops, openResourceFork img v (Int.ofNat i) fuel = Res.ok (s, ops) →
       (streamReadAll s).length = f.directoryEntry.rLgLen) := by
  constructor
  · intro s ops h
    have hb : bytesReader img v f.directoryEntry.stBlk f.directoryEntry.lgLen fuel
        = Res.ok (s, ops) := by
      simpa [openDataFork, hf] using h
    obtain ⟨h1, h2⟩ := bytesReader_length hb
    unfold streamReadAll
    rw [h2]
    simpa using h1
  · intro s ops h
    have hb : bytesReader img v f.directoryEntry.rStBlk f.directoryEntry.rLgLen fuel
        = Res.ok (s, ops) := by
      simpa [openResourceFork, hf] using h
    obtain ⟨h1, h2⟩ := bytesReader_length hb
    unfold streamReadAll
    rw [h2]
    simpa using h1

/-- C1 (witness): on the concrete test volume, the data fork opens to a
3-byte stream (declared length 3) and the resource fork to a 4-byte stream
(declared length 4). -/
theorem fork_stream_length_matches_descriptor_witness :
    (streamReadAll ⟨[8, 9, 10], 0⟩).length = testFile.directoryEntry.lgLen ∧
    (streamReadAll ⟨[8, 9, 10, 11], 0⟩).length = testFile.directoryEntry.rLgLen := by
  have h := fork_stream_length_matches_descriptor testImg testVol 0 testFile 1 (by decide)
  exact ⟨h.1 ⟨[8, 9, 10], 0⟩ [SrcOp.seek 8, SrcOp.read 8 4] (by decide),
         h.2 ⟨[8, 9, 10, 11], 0⟩ [SrcOp.seek 8, SrcOp.read 8 4] (by decide)⟩

/-- On the cyclic volume the chain loop starting from block 2 or 5 runs out
of any fuel bound: the loop state alternates between 2 and 5 and never
reaches the terminal marker 1. -/
theorem cyc_chainLoop (fuel : Nat) :
    ∀ idx dat ops, (idx = 2 ∨ idx = 5) →
      chainLoop cycImg cycVol fuel idx dat ops = Res.fuelOut := by
  induction fuel with
  | zero =>
    intro idx dat ops h
    rcases h with h | h <;> subst h <;> simp [chainLoop]
  | succ fuel ih =>
    intro idx dat ops h
    have hr2 : readAllocationBlock cycImg cycVol.vi 2
        = Res.ok ([2], blockOps cycVol.vi 2) := by decide
    have hr5 : readAllocationBlock cycImg cycVol.vi 5
        = Res.ok ([5], blockOps cycVol.vi 5) := by decide
    have hn2 : nextBlockIndex cycVol 2 = Res.ok 5 := by decide
    have hn5 : nextBlockIndex cycVol 5 = Res.ok 2 := by decide
    rcases h with h | h <;> subst h
    · simp only [chainLoop, hr2, hn2]
      norm_num
      exact ih 5 _ _ (Or.inr rfl)
    · simp only [chainLoop, hr5, hn5]
      norm_num
      exact ih 2 _ _ (Or.inl rfl)

/-- C2 (counterexample): with a hop budget equal to the volume's
allocation-block count (4), opening a 1-byte fork whose chain is the cycle
2 → 5 → 2 has neither returned any error nor terminated — the loop is
still running, so the claimed FormatError after at most
allocationBlockCount hops does not happen. -/
theorem corrupt_chain_counterexample :
    bytesReader cycImg cycVol 2 1 4 = Res.fuelOut ∧
    cycVol.vi.numberOfAllocationBlocks = 4 := by decide

/-- C2 (amended): the code does not detect corrupt chains and has no
FormatError: on the cyclic map 2 → 5 → 2 the open loops forever (for every
hop bound the loop is still running), and a chain whose next index falls
outside the allocation map (here 2 → 3 → 0, where block 0's link lookup
indexes position 65534 of a two-entry map) panics with an out-of-range
index instead of returning an error. -/
theorem corrupt_chain_not_detected :
    (∀ fuel, bytesReader cycImg cycVol 2 1 fuel = Res.fuelOut) ∧
    (∀ fuel, bytesReader panImg panVol 2 1 (fuel + 2) = Res.panicked) := by
  constructor
  · intro fuel
    have hr2 : readAllocationBlock cycImg cycVol.vi 2
        = Res.ok ([2], blockOps cycVol.vi 2) := by decide
    have hn2 : nextBlockIndex cycVol 2 = Res.ok 5 := by decide
    have hc := cyc_chainLoop fuel 5 [2] (blockOps cycVol.vi 2) (Or.inr rfl)
    simp [bytesReader, hr2, hn2, hc]
  · intro fuel
    have hr2 : readAllocationBlock panImg panVol.vi 2
        = Res.ok ([2], blockOps panVol.vi 2) := by decide
    have hn2 : nextBlockIndex panVol 2 = Res.ok 3 := by decide
    have hr3 : readAllocationBlock panImg panVol.vi 3
        = Res.ok ([3], blockOps panVol.vi 3) := by decide
    have hn3 : nextBlockIndex panVol 3 = Res.ok 0 := by decide
    have hr0 : readAllocationBlock panImg panVol.vi 0
        = Res.ok ([0], blockOps panVol.vi 0) := by decide
    have hn0 : nextBlockIndex panVol 0 = Res.panicked := by decide
    have hc : chainLoop panImg panVol (fuel + 2) 3 [2] (blockOps panVol.vi 2)
        = Res.panicked := by
      have hstep : fuel + 2 = (fuel + 1) + 1 := rfl
      rw [hstep]
      simp only [chainLoop, hr3, hn3, hr0, hn0]
      norm_num
    simp [bytesReader, hr2, hn2, hc]

/-- C6 (counterexample): requesting file index 1 of the one-file test
volume makes both fork-open operations panic with an out-of-range index;
no IndexError value is returned. -/
theorem open_fork_index_counterexample :
    openDataFork testImg testVol 1 1 = Res.panicked ∧
    openResourceFork testImg testVol 1 1 = Res.panicked := by decide

/-- C6 (amended): a file index outside `[0, fileCount)` makes OpenDataFork
and OpenResourceFork panic with an out-of-range index — the code has no
IndexError and performs no bounds check; the indexing expression
`volume.Files[fileIndex]` faults. -/
theorem open_fork_index_out_of_range (img : List Nat) (v : Volume) (i : Int)
    (fuel : Nat) (h : i < 0 ∨ ((v.files.length : Int) ≤ i)) :
    openDataFork img v i fuel = Res.panicked ∧
    openResourceFork img v i fuel = Res.panicked := by
  cases i with
  | ofNat n =>
    simp only [Int.ofNat_eq_coe] at h
    have hn : v.files.length ≤ n := by
      rcases h with h | h <;> omega
    have hg : v.files[n]? = none := List.getElem?_eq_none hn
    constructor
    · simp [openDataFork, hg]
    · simp [openResourceFork, hg]
  | negSucc n => exact ⟨rfl, rfl⟩

/-- C6 (witness): index 5 on the one-file test volume panics in both open
operations. -/
theorem open_fork_index_out_of_range_witness :
    openDataFork testImg testVol 5 1 = Res.panicked ∧
    openResourceFork testImg testVol 5 1 = Res.panicked :=
  open_fork_index_out_of_range testImg testVol 5 1 (Or.inr (by decide))

/-- C7 (counterexample): a directory record declaring name length 40 makes
record construction — and hence directory parsing — panic with an
out-of-range slice; no FormatError value is returned (the code has none). -/
theorem long_name_counterexample :
    mkFile fde40 = Res.panicked ∧ parseFiles [fde40] = Res.panicked := by decide

/-- C7 (amended): a record whose declared name-length byte exceeds 31
causes parsing (and hence volume construction) to fail with a runtime
panic — the slice `data[1 : length+1]` of the 32-byte name field is out of
range — rather than with a FormatError. -/
theorem long_name_panics (fde : FileDirectoryEntry) (L : Nat)
    (hh : fde.nam.head? = some L) (hlen : fde.nam.length = 32) (hL : 31 < L) :
    mkFile fde = Res.panicked ∧
    ∀ rest, parseFiles (fde :: rest) = Res.panicked := by
  have hp : pascalString fde.nam = Res.panicked := by
    unfold pascalString
    cases hn : fde.nam with
    | nil => simp [hn] at hlen
    | cons l tl =>
      rw [hn] at hh hlen
      simp at hh
      subst hh
      dsimp only
      have h0 : ¬ (l = 0) := by omega
      have h1 : ¬ (l + 1 ≤ (l :: tl).length) := by
        rw [hlen]; omega
      rw [if_neg h0, if_neg h1]
  have hm : mkFile fde = Res.panicked := by
    unfold mkFile
    rw [hp]
  refine ⟨hm, ?_⟩
  intro rest
  unfold parseFiles
  rw [hm]

/-- C7 (witness): the amended statement at the concrete record `fde40`
with declared name length 40. -/
theorem long_name_panics_witness :
    mkFile fde40 = Res.panicked ∧ parseFiles (fde40 :: []) = Res.panicked := by
  have h := long_name_panics fde40 40 (by decide) (by decide) (by decide)
  exact ⟨h.1, h.2 []⟩

/-- A successful run of the chain loop visits exactly the blocks that the
pure map walk `chainIdxs` lists, appending each visited block's bytes to
the buffer and its seek-plus-read pair to the source trace. -/
theorem chainLoop_ok_spec (img : List Nat) (v : Volume) :
    ∀ (fuel idx : Nat) (dat : List Nat) (ops : List SrcOp)
      (dat2 : List Nat) (ops2 : List SrcOp),
      chainLoop img v fuel idx dat ops = Res.ok (dat2, ops2) →
      ∃ blks, chainIdxs v fuel idx = some blks ∧
        dat2 = dat ++ blks.flatMap (blockBytes img v.vi) ∧
        ops2 = ops ++ blks.flatMap (blockOps v.vi) := by
  intro fuel
  induction fuel with
  | zero =>
    intro idx dat ops dat2 ops2 h
    simp only [chainLoop] at h
    split at h
    case isTrue h1 =>
      injection h with h2
      injection h2 with hd ho
      subst hd
      subst ho
      exact ⟨[], by simp [chainIdxs, h1], by simp, by simp⟩
    case isFalse h1 => exact Res.noConfusion h
  | succ fuel ih =>
    intro idx dat ops dat2 ops2 h
    simp only [chainLoop] at h
    split at h
    case isTrue h1 =>
      injection h with h2
      injection h2 with hd ho
      subst hd
      subst ho
      exact ⟨[], by simp [chainIdxs, h1], by simp, by simp⟩
    case isFalse h1 =>
      cases hr : readAllocationBlock img v.vi idx with
      | ok pr =>
        rcases pr with ⟨bytes, ops3⟩
        have hbo := readAllocationBlock_ok hr
        injection hbo with hbytes hops3
        rw [hr] at h
        dsimp only at h
        cases hn : nextBlockIndex v idx with
        | ok nxt =>
          rw [hn] at h
          dsimp only at h
          obtain ⟨blks, hc, hd, ho⟩ := ih nxt (dat ++ bytes) (ops ++ ops3) dat2 ops2 h
          refine ⟨idx :: blks, ?_, ?_, ?_⟩
          · simp only [chainIdxs]
            rw [if_neg h1, hn]
            dsimp only
            rw [hc]
            rfl
          · rw [hd, hbytes]
            simp [List.flatMap_cons, List.append_assoc]
          · rw [ho, hops3]
            simp [List.flatMap_cons, List.append_assoc]
        | goError e => rw [hn] at h; dsimp only at h; exact Res.noConfusion h
        | panicked => rw [hn] at h; dsimp only at h; exact Res.noConfusion h
        | fuelOut => rw [hn] at h; dsimp only at h; exact Res.noConfusion h
      | goError e => rw [hr] at h; dsimp only at h; exact Res.noConfusion h
      | panicked => rw [hr] at h; dsimp only at h; exact Res.noConfusion h
      | fuelOut => rw [hr] at h; dsimp only at h; exact Res.noConfusion h

/-- C10 (confirmed): a successful nonzero-length fork open reads the whole
chain from the byte source during the open call itself — the trace is
exactly one seek-plus-read per chain block, in chain order, and the stream
buffer is the concatenation of those blocks truncated to the logical
length — and reading the returned in-memory stream afterwards issues no
operation against the byte source and is unaffected by any later movement
of the source cursor. -/
theorem open_reads_whole_chain_upfront (img : List Nat) (v : Volume)
    (start len fuel : Nat) (s : ByteStream) (ops : List SrcOp) (hlen : len ≠ 0)
    (h : bytesReader img v start len fuel = Res.ok (s, ops)) :
    (∃ nxt blks,
       nextBlockIndex v start = Res.ok nxt ∧
       chainIdxs v fuel nxt = some blks ∧
       ops = (start :: blks).flatMap (blockOps v.vi) ∧
       s.data = ((start :: blks).flatMap (blockBytes img v.vi)).take len ∧
       s.pos = 0) ∧
    (∀ p q : Nat,
       (worldStreamReadAll (srcSeekWorld ⟨p, s⟩ q)).1 = streamReadAll s ∧
       (worldStreamReadAll (srcSeekWorld ⟨p, s⟩ q)).2.2 = ([] : List SrcOp)) := by
  refine ⟨?_, fun p q => ⟨rfl, rfl⟩⟩
  unfold bytesReader at h
  rw [if_neg hlen] at h
  cases hr : readAllocationBlock img v.vi start with
  | ok pr =>
    rcases pr with ⟨bytes, ops3⟩
    have hbo := readAllocationBlock_ok hr
    injection hbo with hbytes hops3
    rw [hr] at h
    dsimp only at h
    cases hn : nextBlockIndex v start with
    | ok nxt =>
      rw [hn] at h
      dsimp only at h
      cases hc : chainLoop img v fuel nxt bytes ops3 with
      | ok pr2 =>
        rcases pr2 with ⟨dat, ops4⟩
        rw [hc] at h
        dsimp only at h
        obtain ⟨blks, hcx, hd, ho⟩ := chainLoop_ok_spec img v fuel nxt bytes ops3 dat ops4 hc
        split at h
        case isTrue hle =>
          injection h with h2
          injection h2 with hs hops
          subst hs
          subst hops
          refine ⟨nxt, blks, rfl, hcx, ?_, ?_, rfl⟩
          · rw [ho, hops3]
            simp [List.flatMap_cons]
          · rw [hd, hbytes]
            simp [List.flatMap_cons]
        case isFalse => exact Res.noConfusion h
      | goError e => rw [hc] at h; dsimp only at h; exact Res.noConfusion h
      | panicked => rw [hc] at h; dsimp only at h; exact Res.noConfusion h
      | fuelOut => rw [hc] at h; dsimp only at h; exact Res.noConfusion h
    | goError e => rw [hn] at h; dsimp only at h; exact Res.noConfusion h
    | panicked => rw [hn] at h; dsimp only at h; exact Res.noConfusion h
    | fuelOut => rw [hn] at h; dsimp only at h; exact Res.noConfusion h
  | goError e => rw [hr] at h; dsimp only at h; exact Res.noConfusion h
  | panicked => rw [hr] at h; dsimp only at h; exact Res.noConfusion h
  | fuelOut => rw [hr] at h; dsimp only at h; exact Res.noConfusion h

/-- C10 (witness): on the concrete test volume the successful 3-byte data
fork open reads chain block 2 (seek to offset 8, read 4 bytes) during the
open, the stream buffer is that block truncated to 3 bytes, and stream
reads afterwards touch no source state. -/
theorem open_reads_whole_chain_upfront_witness :
    (∃ nxt blks,
       nextBlockIndex testVol 2 = Res.ok nxt ∧
       chainIdxs testVol 1 nxt = some blks ∧
       [SrcOp.seek 8, SrcOp.read 8 4] = (2 :: blks).flatMap (blockOps testVol.vi) ∧
       (⟨[8, 9, 10], 0⟩ : ByteStream).data
         = ((2 :: blks).flatMap (blockBytes testImg testVol.vi)).take 3 ∧
       (⟨[8, 9, 10], 0⟩ : ByteStream).pos = 0) ∧
    (∀ p q : Nat,
       (worldStreamReadAll (srcSeekWorld ⟨p, ⟨[8, 9, 10], 0⟩⟩ q)).1
         = streamReadAll ⟨[8, 9, 10], 0⟩ ∧
       (worldStreamReadAll (srcSeekWorld ⟨p, ⟨[8, 9, 10], 0⟩⟩ q)).2.2
         = ([] : List SrcOp)) :=
  open_reads_whole_chain_upfront testImg testVol 2 3 1 ⟨[8, 9, 10], 0⟩
    [SrcOp.seek 8, SrcOp.read 8 4] (by decide) (by decide)

end Mfs
